import Mathlib

/-!
# Verification of the monologue CT-Log monitor core

A shallow embedding, in Lean 4, of the verification core of the
`google/monologue` Certificate Transparency monitor:

* the interval utility (`interval/interval.go`, `RandomInstant` and its
  revised form `RandomSecond`);
* the STH verifier (`sthgetter/sthgetter.go`: `checkSTH`,
  `checkSTHTimestamp`, `getCheckStoreSTH`);
* the SCT verifier (`certsubmitter`: `checkSCT`);
* the root-set analyzer (`rootsanalyzer/rootsanalyzer.go`:
  `GenerateCertID`, `GenerateSetID`, `diffRootSets`, and the
  change-detection loop `Run`).

Modelling conventions:

* A Go `time.Time` is modelled as an `Int` of nanoseconds since the Unix
  epoch.  Go's internal representation is a seconds field plus a
  nanosecond field in `[0, 1e9)`, so `Time.Unix()` is floor division by
  `1e9` and `Time.Nanosecond()` is the Euclidean remainder.  The zero
  `time.Time` sentinel is modelled by `Option.none` where a function uses
  it as an "absent" signal.
* Machine integers are modelled by `Nat`/`Int`, with an explicit
  `% 2^64` and a two's-complement reinterpretation where the Go code
  converts `uint64` to `int64`.
* SHA-256 is an external crypto primitive; it is modelled as an abstract
  function parameter `sha256 : List Nat → List Nat` from byte strings to
  digests.  Every theorem about the root-set identifier holds for an
  arbitrary such function.
* Signature verification (`ct.SignatureVerifier`) is likewise abstracted
  to a boolean-valued parameter (`true` = the Go call returned a nil
  error).
* Go byte strings (`[]byte`, `string`) are `List Nat`; certificates keep
  their raw DER encoding and subject as fields.
* Randomness (`rand.Int63n(delta)`) is passed in as an explicit parameter
  `r`, constrained to `0 ≤ r < delta` in the theorems that need it.
-/

namespace Monologue

/-! ## Time primitives -/

/-- Nanoseconds per second (`time.Second` in Go). -/
def nsPerSec : Int := 1000000000

/-- Nanoseconds per millisecond (`time.Millisecond` in Go). -/
def nsPerMs : Nat := 1000000

/-- `Time.Unix()`: the whole-second part of an instant, rounding toward
minus infinity (Go stores a time as seconds plus a nanosecond in
`[0, 1e9)`). -/
def unixSec (t : Int) : Int := Int.fdiv t nsPerSec

/-- `Time.Nanosecond()`: the sub-second part of an instant, in
`[0, 1e9)`. -/
def nanosecond (t : Int) : Int := Int.emod t nsPerSec

/-- Reinterpret a `uint64` value (a `Nat` already reduced `% 2^64`) as a
two's-complement `int64`. -/
def toInt64 (v : Nat) : Int :=
  if v < 2 ^ 63 then (v : Int) else (v : Int) - 2 ^ 64

/-- `time.Unix(0, int64(ts*uint64(time.Millisecond)))`: the instant (in
nanoseconds) denoted by a millisecond timestamp carried as a `uint64`,
exactly as the Go conversion computes it, wraparound included. -/
def instantOfMillis (ts : Nat) : Int := toInt64 ((ts * nsPerMs) % 2 ^ 64)

/-! ## Interval utility (`interval/interval.go`) -/

/-- `interval.Interval`: the half-open time interval `[Start, End)`.
Both fields are instants in nanoseconds. -/
structure Interval where
  Start : Int
  End : Int
deriving DecidableEq, Repr

/-- `(*Interval).RandomInstant` from `src/interval/interval.go`.

The nil receiver is `none`; the zero `time.Time` result is modelled as
`none`, any other result as `some` of its nanosecond instant.  `r`
stands for the draw `rand.Int63n(delta)` (only consulted on the branch
that calls it). -/
def RandomInstant (i : Option Interval) (r : Int) : Option Int :=
  match i with
  | none => none
  | some iv =>
    if iv.Start = iv.End ∨ iv.End < iv.Start then
      none
    else
      let start := unixSec iv.Start
      let stop := unixSec iv.End
      let delta := stop - start
      if delta = 0 then
        some iv.Start
      else
        some ((start + r) * nsPerSec)

/-- The first second boundary at or after `t`, as a whole-second count:
`t.Unix()`, incremented when `t.Nanosecond() != 0` (the roundup blocks in
`RandomSecond`). -/
def ceilSec (t : Int) : Int :=
  unixSec t + (if nanosecond t ≠ 0 then 1 else 0)

/-- `(*Interval).RandomSecond`, the revised form of the same function
(`src/unnamed/part_003`): rounds `Start` and `End` up to second
boundaries before measuring the range, and returns the zero time when no
second boundary lies in `[Start, End)`. -/
def RandomSecond (i : Option Interval) (r : Int) : Option Int :=
  match i with
  | none => none
  | some iv =>
    if ¬ iv.Start < iv.End then
      none
    else
      let start := ceilSec iv.Start
      let stop := ceilSec iv.End
      let delta := stop - start
      if delta = 0 then
        none
      else
        some ((start + r) * nsPerSec)

/-! ## Log metadata (`ctlog/ctlog.go`) -/

/-- `ctlog.Log`: identity and parameters of a monitored CT Log.  `LogID`
is the 32-byte identifier derived from the Log's public key; `MMD` is the
Maximum Merge Delay in nanoseconds (`time.Duration`). -/
structure Log where
  Name : String
  URL : String
  LogID : List Nat
  MMD : Int
  TemporalInterval : Option Interval
deriving DecidableEq, Repr

/-! ## STH verifier (`sthgetter/sthgetter.go`) -/

/-- `ct.SignedTreeHead` as the monitor consumes it: tree size, the
Log-assigned millisecond timestamp (`uint64`), the root hash and the
signature bytes. -/
structure SignedTreeHead where
  TreeSize : Nat
  Timestamp : Nat
  RootHash : List Nat
  Signature : List Nat
deriving DecidableEq, Repr

/-- The two error kinds `checkSTH` can emit
(`sthgetter.SignatureVerificationError`, `sthgetter.OldTimestampError`).
Each Go value wraps an underlying cause; only the kind matters here. -/
inductive STHError where
  | signatureVerification
  | oldTimestamp
deriving DecidableEq, Repr

/-- `sthgetter.checkSTHTimestamp`: errors iff the STH's instant is more
than `mmd` before `receivedAt`.  The `some`/`none` result mirrors the Go
`error`/`nil` return. -/
def checkSTHTimestamp (sth : SignedTreeHead) (receivedAt : Int) (mmd : Int) : Option String :=
  let sthTimestamp := instantOfMillis sth.Timestamp
  if sthTimestamp < receivedAt + (-mmd) then
    some "STH timestamp is more than mmd before receivedAt"
  else
    none

/-- `sthgetter.checkSTH`: runs the signature check and the freshness
check, appending an error for each failure.  `verify` abstracts
`(*ct.SignatureVerifier).VerifySTHSignature` bound to the Log's public
key (`true` = the signature verifies, i.e. the Go call returned nil). -/
def checkSTH (verify : SignedTreeHead → Bool) (sth : SignedTreeHead) (receivedAt : Int)
    (l : Log) : List STHError :=
  let errs : List STHError := []
  let errs := if verify sth then errs else errs ++ [STHError.signatureVerification]
  let errs :=
    if (checkSTHTimestamp sth receivedAt l.MMD).isSome then errs ++ [STHError.oldTimestamp]
    else errs
  errs

/-! ## Transport results (`client/client.go`, `client/errors.go`) -/

/-- The typed failures the transport client can return
(`client/errors.go`). -/
inductive TransportError where
  | get
  | post
  | nilResponse
  | bodyRead
  | httpStatus (code : Nat)
  | jsonParse
  | responseToStruct
deriving DecidableEq, Repr

/-- The outcome of a typed fetch such as `LogClient.GetSTH` or
`LogClient.AddChain`: the client returns a populated value exactly when
it returns a nil error (every error path in `client.go` returns a nil
typed value), so the pair `(value, err)` is a sum. -/
abbrev FetchResult (α : Type) := Except TransportError α

/-- The observable effects of one `fetch → record → verify` iteration:
whether the API call was written to the API-call recorder, the transport
error stored in that record (if any), and the verifier's output when the
verifier ran (`none` = verification skipped). -/
structure IterationTrace (E : Type) where
  recordedAPICall : Bool
  recordedErr : Option TransportError
  checked : Option (List E)
deriving DecidableEq, Repr

/-- `sthgetter.getCheckStoreSTH`: fetches an STH, always records the
get-sth API call (carrying `getErr`), and verifies the STH only when one
was returned (`if sth == nil { return }` precedes the `checkSTH`
call). -/
def getCheckStoreSTH (verify : SignedTreeHead → Bool)
    (fetched : FetchResult SignedTreeHead) (receivedAt : Int) (l : Log) :
    IterationTrace STHError :=
  { recordedAPICall := true
    recordedErr := match fetched with
      | .error e => some e
      | .ok _ => none
    checked := match fetched with
      | .error _ => none
      | .ok sth => some (checkSTH verify sth receivedAt l) }

/-! ## Certificates -/

/-- An `x509.Certificate` as the monitor uses it: its raw DER encoding
(the byte string `cert.Raw`) and its subject's string form
(`cert.Subject.String()`, used only to sort report listings).  A Go
`*x509.Certificate` is `Option Certificate` (`none` = nil pointer). -/
structure Certificate where
  Raw : List Nat
  Subject : String
deriving DecidableEq, Repr

/-! ## SCT verifier (`certsubmitter/certsubmitter.go`) -/

/-- The supported protocol version `ct.V1`. -/
def V1 : Nat := 0

/-- `ct.SignedCertificateTimestamp` as the monitor consumes it.
`SCTVersion` is the `uint8` version, `LogID` the embedded 32-byte key
id, `Timestamp` the millisecond timestamp (`uint64`), `Extensions` the
opaque extension bytes (Go `nil` and `[]byte{}` are both `[]` here,
matching the `sct.Extensions != nil && !bytes.Equal(sct.Extensions,
[]byte{})` test). -/
structure SignedCertificateTimestamp where
  SCTVersion : Nat
  LogID : List Nat
  Timestamp : Nat
  Extensions : List Nat
  Signature : List Nat
deriving DecidableEq, Repr

/-- The error kinds `checkSCT` can emit (`certsubmitter.SCTVersionError`,
`certsubmitter.SCTLogIDError`, `certsubmitter.SCTExtensionsError`,
`errors.SignatureVerificationError`, `certsubmitter.SCTFromFutureError`),
with their payloads. -/
inductive SCTError where
  | version (got want : Nat)
  | logID (got want : List Nat)
  | extensions (exts : List Nat)
  | signatureVerification
  | fromFuture
deriving DecidableEq, Repr

/-- `certsubmitter.checkSCT`.

Modelled from the spec: the current revision of `checkSCT` — the one the
package's own `TestCheckSCT` exercises, taking `receivedAt` and emitting
`SCTFromFutureError` — is not among the source files; the sources hold
only older revisions (the latest of which performs the version, Log-ID,
extensions and signature checks, in that order, without the freshness
check).  The first four checks below follow that latest revision; the
fifth follows §4.3 of the spec: "if the SCT's timestamp is strictly
after `receivedAt` (the Log claims to have issued the SCT in the
monitor's future), fail with `SCTFromFutureError`", appended after the
signature check as the spec's output order requires.

`verify` abstracts `ctutil.VerifySCTWithVerifier(sv, chain, sct, false)`
(`true` = the signature verifies over the submitted chain). -/
def checkSCT (verify : List Certificate → SignedCertificateTimestamp → Bool)
    (sct : SignedCertificateTimestamp) (chain : List Certificate) (l : Log)
    (receivedAt : Int) : List SCTError :=
  let errs : List SCTError := []
  let errs :=
    if sct.SCTVersion ≠ V1 then errs ++ [SCTError.version sct.SCTVersion V1] else errs
  let errs :=
    if sct.LogID ≠ l.LogID then errs ++ [SCTError.logID sct.LogID l.LogID] else errs
  let errs :=
    if sct.Extensions ≠ [] then errs ++ [SCTError.extensions sct.Extensions] else errs
  let errs := if verify chain sct then errs else errs ++ [SCTError.signatureVerification]
  let errs :=
    if receivedAt < instantOfMillis sct.Timestamp then errs ++ [SCTError.fromFuture]
    else errs
  errs

/-- One iteration of the certificate submitter after a chain was issued.

Modelled from the spec: the revision of `certsubmitter.Run` that pairs
with the current `checkSCT` is not among the source files.  Per §7 of
the spec, a transport error from add-chain is "always recorded via the
API-call recorder regardless of outcome, then treated as a failed fetch:
verification is skipped for that iteration"; the older revisions in the
sources record the API call and then either return on a nil SCT or have
no verification step yet. -/
def submitCheckStoreSCT (verify : List Certificate → SignedCertificateTimestamp → Bool)
    (fetched : FetchResult SignedCertificateTimestamp) (chain : List Certificate)
    (receivedAt : Int) (l : Log) : IterationTrace SCTError :=
  { recordedAPICall := true
    recordedErr := match fetched with
      | .error e => some e
      | .ok _ => none
    checked := match fetched with
      | .error _ => none
      | .ok sct => some (checkSCT verify sct chain l receivedAt) }

/-! ## Root-set analyzer (`rootsanalyzer/rootsanalyzer.go`) -/

/-- A SHA-256 digest, as a byte string (Go turns the `[32]byte` into a
`string` before sorting and joining). -/
abbrev Digest := List Nat

/-- `rootsanalyzer.GenerateCertID`: the content hash of a certificate's
raw DER encoding; errors on a nil certificate.  `sha256` abstracts
`crypto/sha256.Sum256`. -/
def GenerateCertID (sha256 : List Nat → Digest) (root : Option Certificate) :
    Except String Digest :=
  match root with
  | none => Except.error "Unable to generate root-ID for nil"
  | some c => Except.ok (sha256 c.Raw)

/-- The cert-ID loop inside `GenerateSetID`: maps `GenerateCertID` over
the roots, returning on the first failure (wrapped once, as the Go loop
wraps the error it returns on). -/
def certIDList (sha256 : List Nat → Digest) : List (Option Certificate) →
    Except String (List Digest)
  | [] => Except.ok []
  | r :: rest =>
    match GenerateCertID sha256 r with
    | Except.error e => Except.error ("Unable to generate ID for root-set: " ++ e)
    | Except.ok certID =>
      match certIDList sha256 rest with
      | Except.error e => Except.error e
      | Except.ok ids => Except.ok (certID :: ids)

/-- The `rootIDSet` deduplication inside `GenerateSetID`: keeps the first
occurrence of each ID, tracking already-seen IDs in `seen` (the Go code
uses a `map[[32]byte]bool` and appends unseen IDs in input order). -/
def dedupIDs (seen : List Digest) : List Digest → List Digest
  | [] => []
  | x :: xs => if x ∈ seen then dedupIDs seen xs else x :: dedupIDs (x :: seen) xs

/-- `rootsanalyzer.GenerateSetID`: hash of the sorted, deduplicated,
concatenated cert IDs.  `sort.Strings` is lexicographic byte-string
order, i.e. `List.mergeSort` under the lexicographic order on
`List Nat`; `strings.Join(ids, "")` is `List.flatten`. -/
def GenerateSetID (sha256 : List Nat → Digest) (roots : List (Option Certificate)) :
    Except String Digest :=
  match certIDList sha256 roots with
  | Except.error e => Except.error e
  | Except.ok ids =>
    let dedupRootIDs := dedupIDs [] ids
    let sorted := dedupRootIDs.mergeSort (fun a b => a ≤ b)
    Except.ok (sha256 sorted.flatten)

/-- Whether some certificate in `certs` has raw DER equal to `raw` (the
`oldSet[certDER] != nil` map lookup, with the map as a list). -/
def memRaw (certs : List Certificate) (raw : List Nat) : Bool :=
  certs.any (fun c => c.Raw = raw)

/-- The loop over `new` inside `diffRootSets`: `oldSet` is the map of
old certificates keyed by raw DER (as a list; inputs are documented
duplicate-free, so one entry per key), `added` the accumulator.  A cert
of `new` found in `oldSet` deletes its key; one not found is appended to
`added`.  What is left of `oldSet` at the end is `removed`. -/
def diffRootSetsLoop (oldSet added : List Certificate) :
    List Certificate → List Certificate × List Certificate
  | [] => (added, oldSet)
  | c :: rest =>
    if memRaw oldSet c.Raw then
      diffRootSetsLoop (oldSet.filter (fun o => ¬ o.Raw = c.Raw)) added rest
    else
      diffRootSetsLoop oldSet (added ++ [c]) rest

/-- `rootsanalyzer.diffRootSets`: the certificates added and removed in
`new` relative to `old`, compared by raw content equality. -/
def diffRootSets (old new : List Certificate) : List Certificate × List Certificate :=
  diffRootSetsLoop old [] new

/-! ## Root-set change-detection loop (`rootsanalyzer.Run`) -/

/-- A `storage.RootSetID` (a Go `string`; its zero value `""` is `[]`,
the initial value of `lastRootSetID`). -/
abbrev RootSetID := List Nat

/-- The change-detection loop of `rootsanalyzer.Run`, unrolled over a
finite prefix of the observation stream.  The result records, per
observation processed, whether an incident report was handed to the
reporter for it.

State per step: `last` is `lastRootSetID`.  A report is attempted iff
`last != "" && last != rootSetID`; on that path the two `ReadRoots`
calls run in order and an error from either terminates the loop without
reporting (the trace ends after a `false` entry).  Otherwise (and after
a successful report) `lastRootSetID = rootSetID` and the loop
continues.  `readRoots` abstracts `storage.RootsReader.ReadRoots`. -/
def analyzerTrace (readRoots : RootSetID → Except Unit (List Certificate)) :
    RootSetID → List RootSetID → List Bool
  | _, [] => []
  | last, rootSetID :: rest =>
    if last ≠ [] ∧ last ≠ rootSetID then
      match readRoots last with
      | Except.error _ => [false]
      | Except.ok _ =>
        match readRoots rootSetID with
        | Except.error _ => [false]
        | Except.ok _ => true :: analyzerTrace readRoots rootSetID rest
    else
      false :: analyzerTrace readRoots rootSetID rest

/-! ## Shared lemmas -/

/-- `checkSTH` decomposes into the outputs of its two independent
checks, signature part first. -/
lemma checkSTH_decomp (verify : SignedTreeHead → Bool) (sth : SignedTreeHead)
    (receivedAt : Int) (l : Log) :
    checkSTH verify sth receivedAt l =
      (if verify sth then [] else [STHError.signatureVerification]) ++
      (if (checkSTHTimestamp sth receivedAt l.MMD).isSome then [STHError.oldTimestamp]
       else []) := by
  unfold checkSTH
  split <;> split <;> simp

/-- The freshness check errors exactly when the STH instant is strictly
before `receivedAt - mmd`. -/
lemma checkSTHTimestamp_isSome_iff (sth : SignedTreeHead) (receivedAt mmd : Int) :
    (checkSTHTimestamp sth receivedAt mmd).isSome ↔
      instantOfMillis sth.Timestamp < receivedAt - mmd := by
  unfold checkSTHTimestamp
  rw [sub_eq_add_neg]
  by_cases h : instantOfMillis sth.Timestamp < receivedAt + -mmd <;> simp [h]

/-- `checkSCT` decomposes into the outputs of its five independent
checks, in their fixed order. -/
lemma checkSCT_decomp (verify : List Certificate → SignedCertificateTimestamp → Bool)
    (sct : SignedCertificateTimestamp) (chain : List Certificate) (l : Log)
    (receivedAt : Int) :
    checkSCT verify sct chain l receivedAt =
      (if sct.SCTVersion ≠ V1 then [SCTError.version sct.SCTVersion V1] else []) ++
      (if sct.LogID ≠ l.LogID then [SCTError.logID sct.LogID l.LogID] else []) ++
      (if sct.Extensions ≠ [] then [SCTError.extensions sct.Extensions] else []) ++
      (if verify chain sct then [] else [SCTError.signatureVerification]) ++
      (if receivedAt < instantOfMillis sct.Timestamp then [SCTError.fromFuture]
       else []) := by
  unfold checkSCT
  split <;> split <;> split <;> split <;> split <;> simp

/-! ## Claim theorems -/

/-- C2: the STH freshness check (`checkSTH`'s `OldTimestampError`,
produced by `checkSTHTimestamp`) fires iff the STH instant is strictly
before `receivedAt - mmd`; an STH exactly `mmd` old at receipt gives no
freshness error, and one older by any positive amount gives the
error. -/
theorem sth_freshness_boundary (verify : SignedTreeHead → Bool) (sth : SignedTreeHead)
    (receivedAt : Int) (l : Log) :
    (STHError.oldTimestamp ∈ checkSTH verify sth receivedAt l ↔
      instantOfMillis sth.Timestamp < receivedAt - l.MMD)
    ∧ (instantOfMillis sth.Timestamp = receivedAt - l.MMD →
        checkSTHTimestamp sth receivedAt l.MMD = none)
    ∧ (∀ d : Int, 0 < d → instantOfMillis sth.Timestamp = receivedAt - l.MMD - d →
        (checkSTHTimestamp sth receivedAt l.MMD).isSome) := by
  refine ⟨?_, ?_, ?_⟩
  · rw [checkSTH_decomp, ← checkSTHTimestamp_isSome_iff]
    split <;> split <;> simp_all
  · intro h
    have := checkSTHTimestamp_isSome_iff sth receivedAt l.MMD
    rcases hc : checkSTHTimestamp sth receivedAt l.MMD with _ | v
    · rfl
    · rw [hc] at this
      simp [h] at this
  · intro d hd h
    rw [checkSTHTimestamp_isSome_iff, h]
    omega

/-- C2 witness: with `mmd = 24h`, an STH timestamped at instant `T`
received at exactly `T + 24h` gives no freshness error, and received
`1ns` later gives the error. -/
theorem sth_freshness_boundary_witness :
    (checkSTHTimestamp ⟨580682455, 1512556025588, [], []⟩
        (1512556025588000000 + 86400000000000) 86400000000000 = none)
    ∧ (checkSTHTimestamp ⟨580682455, 1512556025588, [], []⟩
        (1512556025588000000 + 86400000000000 + 1) 86400000000000).isSome := by
  constructor
  · exact (sth_freshness_boundary (fun _ => true) ⟨580682455, 1512556025588, [], []⟩
      (1512556025588000000 + 86400000000000)
      ⟨"log", "url", [], 86400000000000, none⟩).2.1 (by decide)
  · exact (sth_freshness_boundary (fun _ => true) ⟨580682455, 1512556025588, [], []⟩
      (1512556025588000000 + 86400000000000 + 1)
      ⟨"log", "url", [], 86400000000000, none⟩).2.2 1 (by decide) (by decide)

/-- C7: `checkSTH` performs the signature check and the freshness check
unconditionally — its output is the concatenation of the two checks'
individual outputs, the signature error first — and when both checks
fail it returns exactly `[SignatureVerificationError,
OldTimestampError]`. -/
theorem checkSTH_order (verify : SignedTreeHead → Bool) (sth : SignedTreeHead)
    (receivedAt : Int) (l : Log) :
    (checkSTH verify sth receivedAt l =
      (if verify sth then [] else [STHError.signatureVerification]) ++
      (if (checkSTHTimestamp sth receivedAt l.MMD).isSome then [STHError.oldTimestamp]
       else []))
    ∧ (verify sth = false → (checkSTHTimestamp sth receivedAt l.MMD).isSome →
        checkSTH verify sth receivedAt l =
          [STHError.signatureVerification, STHError.oldTimestamp]) := by
  refine ⟨checkSTH_decomp verify sth receivedAt l, fun hv ht => ?_⟩
  rw [checkSTH_decomp, hv]
  simp [ht]

/-- C7 witness: a concrete STH whose signature check fails and which is
older than the MMD at receipt produces exactly the two errors in
order. -/
theorem checkSTH_order_witness :
    checkSTH (fun _ => false) ⟨1, 0, [], []⟩ 86400000000001
        ⟨"log", "url", [], 86400000000000, none⟩ =
      [STHError.signatureVerification, STHError.oldTimestamp] :=
  (checkSTH_order (fun _ => false) ⟨1, 0, [], []⟩ 86400000000001
      ⟨"log", "url", [], 86400000000000, none⟩).2 rfl (by decide)

/-- C3: the SCT verification's output is, in this fixed order, a version
error iff the version is not v1, a Log-ID error iff the embedded Log ID
differs from the monitored Log's, an extensions error iff the extensions
are non-empty, a signature error iff the signature does not verify over
the submitted chain, and a from-future error iff the SCT instant is
strictly after `receivedAt`; the five checks are independent, so the
output is the concatenation of their individual outputs. -/
theorem checkSCT_errors_iff_in_order
    (verify : List Certificate → SignedCertificateTimestamp → Bool)
    (sct : SignedCertificateTimestamp) (chain : List Certificate) (l : Log)
    (receivedAt : Int) :
    checkSCT verify sct chain l receivedAt =
      (if sct.SCTVersion ≠ V1 then [SCTError.version sct.SCTVersion V1] else []) ++
      (if sct.LogID ≠ l.LogID then [SCTError.logID sct.LogID l.LogID] else []) ++
      (if sct.Extensions ≠ [] then [SCTError.extensions sct.Extensions] else []) ++
      (if verify chain sct then [] else [SCTError.signatureVerification]) ++
      (if receivedAt < instantOfMillis sct.Timestamp then [SCTError.fromFuture]
       else []) :=
  checkSCT_decomp verify sct chain l receivedAt

/-- C5: an SCT whose instant is strictly after `receivedAt` always
yields an `SCTFromFutureError`, and an otherwise-valid such SCT yields
exactly that one error. -/
theorem checkSCT_from_future
    (verify : List Certificate → SignedCertificateTimestamp → Bool)
    (sct : SignedCertificateTimestamp) (chain : List Certificate) (l : Log)
    (receivedAt : Int) (hfut : receivedAt < instantOfMillis sct.Timestamp) :
    SCTError.fromFuture ∈ checkSCT verify sct chain l receivedAt
    ∧ (sct.SCTVersion = V1 → sct.LogID = l.LogID → sct.Extensions = [] →
        verify chain sct = true →
        checkSCT verify sct chain l receivedAt = [SCTError.fromFuture]) := by
  constructor
  · rw [checkSCT_decomp]
    simp [hfut]
  · intro hv hid hext hsig
    rw [checkSCT_decomp, hv, hid, hext, hsig]
    simp [hfut]

/-- C5 witness: the test vector — an SCT timestamped `1512556025588` ms
received at instant `1512552600` s (about 57 minutes earlier) — yields
exactly one `SCTFromFutureError`. -/
theorem checkSCT_from_future_witness :
    SCTError.fromFuture ∈
      checkSCT (fun _ _ => true) ⟨0, [8, 65], 1512556025588, [], []⟩ []
        ⟨"log", "url", [8, 65], 86400000000000, none⟩ (1512552600 * 1000000000)
    ∧ checkSCT (fun _ _ => true) ⟨0, [8, 65], 1512556025588, [], []⟩ []
        ⟨"log", "url", [8, 65], 86400000000000, none⟩ (1512552600 * 1000000000) =
        [SCTError.fromFuture] := by
  have h := checkSCT_from_future (fun _ _ => true) ⟨0, [8, 65], 1512556025588, [], []⟩ []
    ⟨"log", "url", [8, 65], 86400000000000, none⟩ (1512552600 * 1000000000) (by decide)
  exact ⟨h.1, h.2 rfl rfl rfl rfl⟩

/-- C8: when the fetch of an iteration returns a transport error, the
API call (carrying that error) is still recorded and the verifier is
not invoked on the absent response — for the STH getter and the
certificate submitter alike. -/
theorem transport_error_recorded_verification_skipped (e : TransportError)
    (verifySTH : SignedTreeHead → Bool)
    (verifySCT : List Certificate → SignedCertificateTimestamp → Bool)
    (chain : List Certificate) (receivedAt : Int) (l : Log) :
    getCheckStoreSTH verifySTH (Except.error e) receivedAt l =
      ⟨true, some e, none⟩
    ∧ submitCheckStoreSCT verifySCT (Except.error e) chain receivedAt l =
      ⟨true, some e, none⟩ :=
  ⟨rfl, rfl⟩

/-- C10: `GenerateSetID` on the empty root slice succeeds and returns
the hash of the empty byte string. -/
theorem generateSetID_empty (sha256 : List Nat → Digest) :
    GenerateSetID sha256 [] = Except.ok (sha256 []) := by
  simp [GenerateSetID, certIDList, dedupIDs, List.mergeSort_nil]

/-- C4 (the failing input): `RandomInstant` on the sub-second interval
`[1ns, 999999999ns)` — which contains no second-aligned instant —
returns `Start` (for every random draw), a non-zero instant that is not
second-aligned, where the claim (and the revised `RandomSecond`, which
`TestRandomSecond` exercises on exactly this shape of input) requires
the zero time. -/
theorem randomInstant_subsecond_returns_start :
    (∀ r : Int, RandomInstant (some ⟨1, 999999999⟩) r = some 1)
    ∧ nanosecond 1 ≠ 0
    ∧ (∀ r : Int, RandomSecond (some ⟨1, 999999999⟩) r = none) := by
  refine ⟨fun r => rfl, by decide, fun r => rfl⟩

/-! ## diffRootSets lemmas -/

/-- A certificate slice with no internal duplicates, compared by raw
content (the documented precondition of `diffRootSets`). -/
def nodupRaw (certs : List Certificate) : Prop := (certs.map Certificate.Raw).Nodup

instance (certs : List Certificate) : Decidable (nodupRaw certs) := by
  unfold nodupRaw; infer_instance

lemma memRaw_iff (certs : List Certificate) (raw : List Nat) :
    memRaw certs raw = true ↔ ∃ c ∈ certs, c.Raw = raw := by
  simp [memRaw]

/-- Deleting one key from the old-set map does not change lookups of
other keys. -/
lemma memRaw_filter_ne (oldSet : List Certificate) (raw cr : List Nat) (h : raw ≠ cr) :
    memRaw (oldSet.filter (fun o => ¬ o.Raw = cr)) raw = memRaw oldSet raw := by
  rw [Bool.eq_iff_iff, memRaw_iff, memRaw_iff]
  constructor
  · rintro ⟨c, hc, hcr⟩
    exact ⟨c, (List.mem_filter.mp hc).1, hcr⟩
  · rintro ⟨c, hc, hcr⟩
    refine ⟨c, List.mem_filter.mpr ⟨hc, ?_⟩, hcr⟩
    simp only [decide_eq_true_eq]
    rw [hcr]
    exact h

/-- The `added` output of the loop: the certificates of `new` whose raw
DER is absent from the old set, in input order (for duplicate-free
`new`). -/
lemma diffRootSetsLoop_fst (new : List Certificate) :
    ∀ oldSet added, nodupRaw new →
      (diffRootSetsLoop oldSet added new).1 =
        added ++ new.filter (fun c => ¬ memRaw oldSet c.Raw) := by
  induction new with
  | nil => intro oldSet added _; simp [diffRootSetsLoop]
  | cons c rest ih =>
    intro oldSet added hnd
    have hnd' : nodupRaw rest := (List.nodup_cons.mp hnd).2
    have hcr : c.Raw ∉ rest.map Certificate.Raw := (List.nodup_cons.mp hnd).1
    by_cases hmem : memRaw oldSet c.Raw = true
    · rw [diffRootSetsLoop, if_pos hmem, ih _ _ hnd']
      have hfc : rest.filter (fun x => ¬ memRaw (oldSet.filter (fun o => ¬ o.Raw = c.Raw)) x.Raw)
          = rest.filter (fun x => ¬ memRaw oldSet x.Raw) := by
        apply List.filter_congr
        intro x hx
        have hxne : x.Raw ≠ c.Raw := fun hc => hcr (hc ▸ List.mem_map_of_mem Certificate.Raw hx)
        rw [memRaw_filter_ne oldSet x.Raw c.Raw hxne]
      rw [hfc, List.filter_cons]
      simp [hmem]
    · rw [diffRootSetsLoop, if_neg hmem, ih _ _ hnd', List.filter_cons]
      have : (¬ memRaw oldSet c.Raw) = True := by simp [hmem]
      simp [hmem, List.append_assoc]

/-- The `removed` output of the loop: the certificates of the old set
whose raw DER is absent from `new`, in old-set order. -/
lemma diffRootSetsLoop_snd (new : List Certificate) :
    ∀ oldSet added,
      (diffRootSetsLoop oldSet added new).2 =
        oldSet.filter (fun o => ¬ memRaw new o.Raw) := by
  induction new with
  | nil => intro oldSet added; simp [diffRootSetsLoop, memRaw]
  | cons c rest ih =>
    intro oldSet added
    by_cases hmem : memRaw oldSet c.Raw = true
    · rw [diffRootSetsLoop, if_pos hmem, ih]
      rw [List.filter_filter]
      apply List.filter_congr
      intro o _
      by_cases ho : o.Raw = c.Raw
      · simp [memRaw, ho]
      · have : ¬ c.Raw = o.Raw := fun hc => ho hc.symm
        simp [memRaw, ho, this]
    · rw [diffRootSetsLoop, if_neg hmem, ih]
      apply List.filter_congr
      intro o hoin
      have : ¬ o.Raw = c.Raw := by
        intro hc
        exact hmem ((memRaw_iff oldSet c.Raw).mpr ⟨o, hoin, hc⟩)
      have : ¬ c.Raw = o.Raw := fun hc => this hc.symm
      simp [memRaw, this]

/-- C6: for duplicate-free inputs, `diffRootSets` returns exactly the
certificates of `new` whose raw bytes do not occur in `old` (as
`added`), and those of `old` whose raw bytes do not occur in `new` (as
`removed`); membership in either output is by raw-byte equality. -/
theorem diffRootSets_correct (old new : List Certificate)
    (_hold : nodupRaw old) (hnew : nodupRaw new) :
    diffRootSets old new =
      (new.filter (fun c => ¬ memRaw old c.Raw),
       old.filter (fun o => ¬ memRaw new o.Raw))
    ∧ (∀ c, c ∈ (diffRootSets old new).1 ↔ c ∈ new ∧ ¬ (∃ o ∈ old, o.Raw = c.Raw))
    ∧ (∀ c, c ∈ (diffRootSets old new).2 ↔ c ∈ old ∧ ¬ (∃ o ∈ new, o.Raw = c.Raw)) := by
  have h1 : (diffRootSets old new).1 = new.filter (fun c => ¬ memRaw old c.Raw) := by
    rw [diffRootSets, diffRootSetsLoop_fst new old [] hnew, List.nil_append]
  have h2 : (diffRootSets old new).2 = old.filter (fun o => ¬ memRaw new o.Raw) := by
    rw [diffRootSets, diffRootSetsLoop_snd new old []]
  refine ⟨?_, ?_, ?_⟩
  · rw [← h1, ← h2]
  · intro c
    rw [h1, List.mem_filter]
    simp [memRaw_iff]
  · intro c
    rw [h2, List.mem_filter]
    simp [memRaw_iff]

/-- C6 witness: when `old` and `new` hold the same single certificate,
both outputs are empty. -/
theorem diffRootSets_correct_witness :
    diffRootSets [⟨[48, 130], "CN=Root"⟩] [⟨[48, 130], "CN=Root"⟩] = ([], []) := by
  have h := diffRootSets_correct [⟨[48, 130], "CN=Root"⟩] [⟨[48, 130], "CN=Root"⟩]
    (by decide) (by decide)
  rw [h.1]
  decide

/-! ## GenerateSetID lemmas -/

/-- The cert ID of a non-nil certificate (what `GenerateCertID` returns
on the success path). -/
def idOf (sha256 : List Nat → Digest) (c : Option Certificate) : Digest :=
  match c with
  | none => []
  | some x => sha256 x.Raw

lemma certIDList_ok (sha256 : List Nat → Digest) :
    ∀ L : List (Option Certificate), (∀ c ∈ L, c ≠ none) →
      certIDList sha256 L = Except.ok (L.map (idOf sha256)) := by
  intro L
  induction L with
  | nil => intro _; rfl
  | cons c rest ih =>
    intro h
    match c, h c (List.mem_cons_self c rest) with
    | some x, _ =>
      rw [certIDList, GenerateCertID, ih (fun c hc => h c (List.mem_cons_of_mem _ hc))]
      rfl

lemma mem_dedupIDs : ∀ (ids seen : List Digest) (a : Digest),
    a ∈ dedupIDs seen ids ↔ a ∈ ids ∧ a ∉ seen := by
  intro ids
  induction ids with
  | nil => intro seen a; simp [dedupIDs]
  | cons x xs ih =>
    intro seen a
    by_cases hx : x ∈ seen
    · rw [dedupIDs, if_pos hx, ih]
      constructor
      · exact fun ⟨h1, h2⟩ => ⟨List.mem_cons_of_mem _ h1, h2⟩
      · rintro ⟨h1, h2⟩
        rcases List.mem_cons.mp h1 with rfl | h1
        · exact absurd hx h2
        · exact ⟨h1, h2⟩
    · rw [dedupIDs, if_neg hx]
      constructor
      · intro h
        rcases List.mem_cons.mp h with rfl | h
        · exact ⟨List.mem_cons_self a xs, hx⟩
        · have := (ih (x :: seen) a).mp h
          exact ⟨List.mem_cons_of_mem _ this.1,
            fun hs => this.2 (List.mem_cons_of_mem _ hs)⟩
      · rintro ⟨h1, h2⟩
        rcases List.mem_cons.mp h1 with rfl | h1
        · exact List.mem_cons_self a _
        · by_cases hax : a = x
          · exact hax ▸ List.mem_cons_self x _
          · exact List.mem_cons_of_mem _ ((ih (x :: seen) a).mpr
              ⟨h1, fun hs => (List.mem_cons.mp hs).elim hax h2⟩)

lemma nodup_dedupIDs : ∀ (ids seen : List Digest), (dedupIDs seen ids).Nodup := by
  intro ids
  induction ids with
  | nil => intro seen; simp [dedupIDs]
  | cons x xs ih =>
    intro seen
    by_cases hx : x ∈ seen
    · rw [dedupIDs, if_pos hx]; exact ih seen
    · rw [dedupIDs, if_neg hx]
      refine List.nodup_cons.mpr ⟨?_, ih (x :: seen)⟩
      intro hmem
      exact ((mem_dedupIDs xs (x :: seen) x).mp hmem).2 (List.mem_cons_self x seen)

/-- Two ID lists with the same members dedup-and-sort to the same
list. -/
lemma mergeSort_dedupIDs_eq (ids ids' : List Digest)
    (h : ∀ a, a ∈ ids ↔ a ∈ ids') :
    (dedupIDs [] ids).mergeSort (fun a b => a ≤ b) =
      (dedupIDs [] ids').mergeSort (fun a b => a ≤ b) := by
  have hfin : (dedupIDs [] ids).toFinset = (dedupIDs [] ids').toFinset := by
    apply Finset.ext
    intro a
    rw [List.mem_toFinset, List.mem_toFinset, mem_dedupIDs, mem_dedupIDs]
    simp [h a]
  have hperm : List.Perm (dedupIDs [] ids) (dedupIDs [] ids') :=
    List.perm_of_nodup_nodup_toFinset_eq (nodup_dedupIDs ids [])
      (nodup_dedupIDs ids' []) hfin
  exact List.eq_of_perm_of_sorted
    ((List.mergeSort_perm _ _).trans (hperm.trans (List.mergeSort_perm _ _).symm))
    (List.sorted_mergeSort' _) (List.sorted_mergeSort' _)

lemma generateSetID_of_certIDList {sha256 : List Nat → Digest}
    {roots : List (Option Certificate)} {ids : List Digest}
    (h : certIDList sha256 roots = Except.ok ids) :
    GenerateSetID sha256 roots =
      Except.ok (sha256 ((dedupIDs [] ids).mergeSort (fun a b => a ≤ b)).flatten) := by
  unfold GenerateSetID
  rw [h]

/-- C1: `GenerateSetID` is invariant under permutation and duplication —
for any list `L` of non-nil certificates and any `L'` with the same
element set (any permutation of `L`'s distinct elements, each duplicated
arbitrarily), both calls succeed with the same `RootSetID`. -/
theorem generateSetID_invariance (sha256 : List Nat → Digest)
    (L L' : List (Option Certificate))
    (hnn : ∀ c ∈ L, c ≠ none)
    (hsub : ∀ x ∈ L, x ∈ L') (hsup : ∀ x ∈ L', x ∈ L) :
    ∃ d, GenerateSetID sha256 L = Except.ok d ∧
      GenerateSetID sha256 L' = Except.ok d := by
  have hnn' : ∀ c ∈ L', c ≠ none := fun c hc => hnn c (hsup c hc)
  have h1 := generateSetID_of_certIDList (certIDList_ok sha256 L hnn)
  have h2 := generateSetID_of_certIDList (certIDList_ok sha256 L' hnn')
  have hmem : ∀ a, a ∈ L.map (idOf sha256) ↔ a ∈ L'.map (idOf sha256) := by
    intro a
    simp only [List.mem_map]
    exact ⟨fun ⟨c, hc, he⟩ => ⟨c, hsub c hc, he⟩, fun ⟨c, hc, he⟩ => ⟨c, hsup c hc, he⟩⟩
  refine ⟨_, h1, ?_⟩
  rw [h2, mergeSort_dedupIDs_eq _ _ fun a => (hmem a).symm]

/-- C1 witness: a two-certificate list and a reordered, duplicated copy
of it produce the same set ID. -/
theorem generateSetID_invariance_witness :
    ∃ d, GenerateSetID (fun l => l ++ [0]) [some ⟨[1], "a"⟩, some ⟨[2], "b"⟩] =
        Except.ok d ∧
      GenerateSetID (fun l => l ++ [0])
        [some ⟨[2], "b"⟩, some ⟨[1], "a"⟩, some ⟨[2], "b"⟩] = Except.ok d :=
  generateSetID_invariance (fun l => l ++ [0])
    [some ⟨[1], "a"⟩, some ⟨[2], "b"⟩]
    [some ⟨[2], "b"⟩, some ⟨[1], "a"⟩, some ⟨[2], "b"⟩]
    (by decide) (by decide) (by decide)

/-! ## Change-detection loop lemmas -/

/-- A report at position `i` of the trace implies that the remembered ID
going into that step (`init` for `i = 0`, the previous observation
otherwise — i.e. `(init :: obsList)[i]`) was non-initial and differed
from observation `i`. -/
lemma analyzerTrace_report_implies_change
    (readRoots : RootSetID → Except Unit (List Certificate)) :
    ∀ (obsList : List RootSetID) (init : RootSetID) (i : Nat),
      (analyzerTrace readRoots init obsList)[i]? = some true →
      ∃ prev cur, (init :: obsList)[i]? = some prev ∧ obsList[i]? = some cur ∧
        prev ≠ [] ∧ prev ≠ cur := by
  intro obsList
  induction obsList with
  | nil => intro init i h; simp [analyzerTrace] at h
  | cons obs rest ih =>
    intro init i h
    rw [analyzerTrace] at h
    by_cases hc : init ≠ [] ∧ init ≠ obs
    · rw [if_pos hc] at h
      rcases hr1 : readRoots init with e1 | v1 <;> rw [hr1] at h
      · rcases i with _ | i <;> simp at h
      · rcases hr2 : readRoots obs with e2 | v2 <;> rw [hr2] at h
        · rcases i with _ | i <;> simp at h
        · rcases i with _ | i
          · exact ⟨init, obs, by simp, by simp, hc.1, hc.2⟩
          · simp only [List.getElem?_cons_succ] at h
            obtain ⟨prev, cur, hp, hcur, hne, hne2⟩ := ih obs i h
            exact ⟨prev, cur, by simpa using hp, by simpa using hcur, hne, hne2⟩
    · rw [if_neg hc] at h
      rcases i with _ | i
      · simp at h
      · simp only [List.getElem?_cons_succ] at h
        obtain ⟨prev, cur, hp, hcur, hne, hne2⟩ := ih obs i h
        exact ⟨prev, cur, by simpa using hp, by simpa using hcur, hne, hne2⟩

/-- C9: the change-detection loop, started with the zero-valued
`lastRootSetID`, never reports on the first observation; a report at any
position implies the observation differed from the last remembered ID
(the previous observation, or the initial sentinel); and an observation
equal to the last remembered ID never produces a report. -/
theorem analyzer_reports_only_on_change
    (readRoots : RootSetID → Except Unit (List Certificate))
    (obsList : List RootSetID) :
    ((analyzerTrace readRoots [] obsList)[0]? ≠ some true)
    ∧ (∀ (i : Nat) (prev cur : RootSetID),
        (([] : RootSetID) :: obsList)[i]? = some prev →
        obsList[i]? = some cur →
        (analyzerTrace readRoots [] obsList)[i]? = some true →
        prev ≠ [] ∧ prev ≠ cur)
    ∧ (∀ (i : Nat) (v : RootSetID),
        (([] : RootSetID) :: obsList)[i]? = some v → obsList[i]? = some v →
        (analyzerTrace readRoots [] obsList)[i]? ≠ some true) := by
  refine ⟨?_, ?_, ?_⟩
  · intro h
    obtain ⟨prev, _, hp, _, hne, _⟩ :=
      analyzerTrace_report_implies_change readRoots obsList [] 0 h
    exact hne (by simpa using hp.symm)
  · intro i prev cur hp hcur h
    obtain ⟨prev', cur', hp', hcur', hne, hne2⟩ :=
      analyzerTrace_report_implies_change readRoots obsList [] i h
    rw [hp] at hp'
    rw [hcur] at hcur'
    cases Option.some.inj hp'
    cases Option.some.inj hcur'
    exact ⟨hne, hne2⟩
  · intro i v hp hcur h
    obtain ⟨prev', cur', hp', hcur', hne, hne2⟩ :=
      analyzerTrace_report_implies_change readRoots obsList [] i h
    rw [hp] at hp'
    rw [hcur] at hcur'
    cases Option.some.inj hp'
    cases Option.some.inj hcur'
    exact hne2 rfl

/-- C9 witness: on the observation stream `[[1], [2]]` a report occurs
at position 1, and the theorem yields that the remembered ID `[1]` was
non-initial and differed from `[2]`; at position 0 no report occurs. -/
theorem analyzer_reports_only_on_change_witness :
    (analyzerTrace (fun _ => Except.ok []) [] [[1], [2]])[0]? ≠ some true
    ∧ ([1] : RootSetID) ≠ [] ∧ ([1] : RootSetID) ≠ [2] := by
  have h := analyzer_reports_only_on_change (fun _ => Except.ok []) [[1], [2]]
  exact ⟨h.1, h.2.1 1 [1] [2] rfl rfl (by decide)⟩

/-! ## Supporting facts about the revised `RandomSecond`

These show the revised function (`src/unnamed/part_003`, the one the
package's `TestRandomSecond` exercises) meets the property claimed of
the interval utility: the zero time exactly when no second-aligned
instant lies in `[Start, End)`, and otherwise a second-aligned instant
inside the interval. -/

lemma unixSec_eq_ediv (t : Int) : unixSec t = t / 1000000000 := by
  unfold unixSec nsPerSec
  exact Int.fdiv_eq_ediv t (by norm_num)

lemma nanosecond_eq_emod (t : Int) : nanosecond t = t % 1000000000 := rfl

/-- `ceilSec t` scaled back to nanoseconds is at or after `t`. -/
lemma le_ceilSec_mul (t : Int) : t ≤ ceilSec t * nsPerSec := by
  have h := Int.ediv_add_emod t 1000000000
  have h0 : 0 ≤ t % 1000000000 := Int.emod_nonneg t (by norm_num)
  have h1 : t % 1000000000 < 1000000000 := Int.emod_lt_of_pos t (by norm_num)
  simp only [ceilSec, unixSec_eq_ediv, nanosecond_eq_emod, nsPerSec]
  split <;> omega

/-- The second boundary just before `ceilSec t` is strictly before
`t`. -/
lemma ceilSec_pred_mul_lt (t : Int) : (ceilSec t - 1) * nsPerSec < t := by
  have h := Int.ediv_add_emod t 1000000000
  have h0 : 0 ≤ t % 1000000000 := Int.emod_nonneg t (by norm_num)
  simp only [ceilSec, unixSec_eq_ediv, nanosecond_eq_emod, nsPerSec]
  split <;> omega

lemma ceilSec_mono {t s : Int} (h : t ≤ s) : ceilSec t ≤ ceilSec s := by
  have h1 := ceilSec_pred_mul_lt t
  have h2 := le_ceilSec_mul s
  have h3 : (ceilSec t - 1) * nsPerSec < ceilSec s * nsPerSec := by
    calc (ceilSec t - 1) * nsPerSec < t := h1
    _ ≤ s := h
    _ ≤ ceilSec s * nsPerSec := h2
  have := lt_of_mul_lt_mul_right h3 (by norm_num [nsPerSec] : (0 : Int) ≤ nsPerSec)
  omega

/-- A second-aligned instant lies in `[Start, End)` iff the rounded-up
second counts of the endpoints differ. -/
lemma aligned_instant_iff (iv : Interval) :
    (∃ k : Int, iv.Start ≤ k * nsPerSec ∧ k * nsPerSec < iv.End) ↔
      ceilSec iv.Start < ceilSec iv.End := by
  constructor
  · rintro ⟨k, hks, hke⟩
    have hn : (0 : Int) ≤ nsPerSec := by norm_num [nsPerSec]
    have hk1 : ceilSec iv.Start ≤ k := by
      by_contra hlt
      push_neg at hlt
      have : k * nsPerSec ≤ (ceilSec iv.Start - 1) * nsPerSec :=
        mul_le_mul_of_nonneg_right (by omega) hn
      have := ceilSec_pred_mul_lt iv.Start
      omega
    have hk2 : k < ceilSec iv.End := by
      by_contra hge
      push_neg at hge
      have : ceilSec iv.End * nsPerSec ≤ k * nsPerSec :=
        mul_le_mul_of_nonneg_right hge hn
      have := le_ceilSec_mul iv.End
      omega
    omega
  · intro hlt
    refine ⟨ceilSec iv.Start, le_ceilSec_mul iv.Start, ?_⟩
    have : ceilSec iv.Start * nsPerSec ≤ (ceilSec iv.End - 1) * nsPerSec :=
      mul_le_mul_of_nonneg_right (by omega) (by norm_num [nsPerSec])
    have := ceilSec_pred_mul_lt iv.End
    omega

/-- The revised `RandomSecond` returns the zero time exactly when no
second-aligned instant lies in `[Start, End)` — for every random draw
`r`, covering the nil-equivalent cases `Start = End`, `End < Start`, and
sub-second spans containing no second boundary. -/
theorem randomSecond_none_iff (iv : Interval) (r : Int) :
    RandomSecond (some iv) r = none ↔
      ¬ ∃ k : Int, iv.Start ≤ k * nsPerSec ∧ k * nsPerSec < iv.End := by
  rw [aligned_instant_iff]
  by_cases hv : iv.Start < iv.End
  · have hmono : ceilSec iv.Start ≤ ceilSec iv.End := ceilSec_mono (le_of_lt hv)
    by_cases hd : ceilSec iv.End - ceilSec iv.Start = 0
    · simp only [RandomSecond, hv, not_true_eq_false, if_false, hd, if_pos]
      constructor
      · intro _; omega
      · intro _; trivial
    · simp only [RandomSecond, hv, not_true_eq_false, if_false, hd, if_neg]
      constructor
      · intro h; exact absurd h (by simp [hd])
      · intro h; omega
  · simp only [RandomSecond, hv, not_false_eq_true, if_true]
    constructor
    · intro _ hlt
      have h1 := le_ceilSec_mul iv.Start
      have h2 : ceilSec iv.End ≤ ceilSec iv.Start := ceilSec_mono (by omega)
      omega
    · intro _; trivial

/-- When a second boundary does lie in `[Start, End)`, the revised
`RandomSecond` returns a second-aligned instant `x` with
`Start ≤ x < End`, for every in-range random draw. -/
theorem randomSecond_in_range (iv : Interval) (r : Int)
    (hvalid : iv.Start < iv.End)
    (hdelta : ceilSec iv.End - ceilSec iv.Start ≠ 0)
    (hr0 : 0 ≤ r) (hrlt : r < ceilSec iv.End - ceilSec iv.Start) :
    ∃ x, RandomSecond (some iv) r = some x ∧ iv.Start ≤ x ∧ x < iv.End ∧
      nanosecond x = 0 := by
  have hn : (0 : Int) ≤ nsPerSec := by norm_num [nsPerSec]
  refine ⟨(ceilSec iv.Start + r) * nsPerSec, ?_, ?_, ?_, ?_⟩
  · simp only [RandomSecond, hvalid, not_true_eq_false, if_false, hdelta, if_neg]
  · have h1 := le_ceilSec_mul iv.Start
    have h2 : ceilSec iv.Start * nsPerSec ≤ (ceilSec iv.Start + r) * nsPerSec :=
      mul_le_mul_of_nonneg_right (by omega) hn
    omega
  · have h1 := ceilSec_pred_mul_lt iv.End
    have h2 : (ceilSec iv.Start + r) * nsPerSec ≤ (ceilSec iv.End - 1) * nsPerSec :=
      mul_le_mul_of_nonneg_right (by omega) hn
    omega
  · unfold nanosecond
    exact Int.mul_emod_left _ _

/-- `randomSecond_in_range` at a concrete input: the interval
`[0.999999999s, 1.000000001s)` contains exactly the boundary `1s`, which
is returned. -/
theorem randomSecond_in_range_concrete :
    ∃ x, RandomSecond (some ⟨999999999, 1000000001⟩) 0 = some x ∧
      (999999999 : Int) ≤ x ∧ x < 1000000001 ∧ nanosecond x = 0 :=
  randomSecond_in_range ⟨999999999, 1000000001⟩ 0 (by decide) (by decide)
    (by decide) (by decide)

end Monologue
